import Mathlib

/-!
Shallow embedding of the nsrlsvr hash-extraction scripts.

The repository holds two small Python programs:

* `src/convert-format.py` ("free-text mode"): reads the file named by the single
  command-line argument, searches every line with the compiled pattern
  `([0-9A-Fa-f]{64}|[0-9A-Fa-f]{40}|[0-9A-Fa-f]{32})`, keeps the first match of
  each matching line, rejects empty or mixed-length results, and writes the
  uppercased hashes one per line to `src/NSRLFile.txt` (truncating it).
  Exit codes: -1 no argument, -2 unreadable input, -4 zero hashes, -8 mixed
  lengths, 0 success.

* `src/denistify.py` ("fixed-offset mode"): repeatedly does
  `line = infile.readline()[44:76]` and loops `while line:`; each nonempty
  slice is matched against `^[A-Fa-f0-9]{32}$` and written (followed by a
  newline) to `dummyfile` when it matches.  The loop ends at end of file or at
  the first line whose slice is empty.

Strings are modelled as `List Char`; a file is a `List (List Char)` of the raw
lines as `readline` returns them (each line includes its trailing newline,
except possibly the last).
-/

/-- The 22 characters of the regex character class `[0-9A-Fa-f]`. -/
def hexDigits : List Char :=
  ['0', '1', '2', '3', '4', '5', '6', '7', '8', '9',
   'A', 'B', 'C', 'D', 'E', 'F', 'a', 'b', 'c', 'd', 'e', 'f']

/-- Membership in the regex character class `[0-9A-Fa-f]`. -/
def isHexDigit (c : Char) : Bool := decide (c ∈ hexDigits)

/-- An uppercase hexadecimal character (digit or `A`–`F`); this is the
canonical output alphabet the specification promises. -/
def isUpperHexDigit (c : Char) : Bool :=
  (['0', '1', '2', '3', '4', '5', '6', '7', '8', '9',
    'A', 'B', 'C', 'D', 'E', 'F']).contains c

/-- Python's `str.upper` on one character, restricted to ASCII (the only
characters it is applied to in `convert-format.py` are hex digits). -/
def pyUpper (c : Char) : Char :=
  if 'a' ≤ c && c ≤ 'z' then Char.ofNat (c.toNat - 32) else c

/-- `hexRun cs n`: the attempt to match the fixed-length alternative
`[0-9A-Fa-f]{n}` anchored at the head of `cs`: succeeds exactly when `cs`
starts with `n` hex characters, returning them. -/
def hexRun (cs : List Char) (n : Nat) : Option (List Char) :=
  if (cs.take n).length = n && (cs.take n).all isHexDigit then
    some (cs.take n)
  else
    none

/-- `re.search` of `hash_re = ([0-9A-Fa-f]{64}|[0-9A-Fa-f]{40}|[0-9A-Fa-f]{32})`
from `convert-format.py` line 7: scan start positions left to right; at each
position try the alternatives in written order (64, then 40, then 32). -/
def searchHash : List Char → Option (List Char)
  | [] => none
  | c :: cs =>
    match hexRun (c :: cs) 64 with
    | some m => some m
    | none =>
      match hexRun (c :: cs) 40 with
      | some m => some m
      | none =>
        match hexRun (c :: cs) 32 with
        | some m => some m
        | none => searchHash cs

/-- The alternation tried at one fixed start position `i` of the line. -/
def matchAt (l : List Char) (i : Nat) : Option (List Char) :=
  match hexRun (l.drop i) 64 with
  | some m => some m
  | none =>
    match hexRun (l.drop i) 40 with
    | some m => some m
    | none => hexRun (l.drop i) 32

/-- Outcome of one run of `convert-format.py`: the value passed to `exit`
(0 when the script falls off the end) and the lines written to
`src/NSRLFile.txt` (`none` when the script exited before opening it). -/
structure RunResult where
  exitCode : Int
  output : Option (List (List Char))
deriving DecidableEq, Repr

/-- The whole of `convert-format.py`, lines 9–30.  `args` are the command-line
arguments after the program name (`len(sys.argv) != 2` is `args.length ≠ 1`),
`readable` is the `os.access(sys.argv[1], os.R_OK)` test, `lines` the result of
`fh.readlines()`. -/
def convertFormat (args : List (List Char)) (readable : Bool)
    (lines : List (List Char)) : RunResult :=
  if args.length ≠ 1 then ⟨-1, none⟩
  else if readable = false then ⟨-2, none⟩
  else
    match lines.filterMap searchHash with
    | [] => ⟨-4, none⟩
    | h0 :: rest =>
      if rest.any (fun x => x.length ≠ h0.length) then ⟨-8, none⟩
      else ⟨0, some ((h0 :: rest).map (fun h => h.map pyUpper))⟩

/-- Contents of the output file after the run, given its prior contents:
a run that opened the file for writing replaced them, any other run left
them alone. -/
def finalOutputFile (r : RunResult) (prior : List (List Char)) :
    List (List Char) :=
  match r.output with
  | some out => out
  | none => prior

/-- Python `re.match` with `md5_re = ^[A-Fa-f0-9]{32}$` from `denistify.py`
line 7: anchored at the start, and `$` also matches just before one trailing
newline. -/
def md5Match (s : List Char) : Bool :=
  (s.length = 32 && s.all isHexDigit) ||
  (s.length = 33 && (s.take 32).all isHexDigit && s.getLast? = some '\n')

/-- The slice `line[44:76]` applied to every `readline` result in
`denistify.py` lines 19 and 28. -/
def slice4476 (l : List Char) : List Char := (l.drop 44).take 32

/-- The `while line:` loop of `denistify.py` lines 19–28 over the remaining
raw lines of the input file: the condition tests the slice, so an empty slice
(end of file, or a line of at most 44 characters) ends the loop; a matching
slice is written to the output file.  Returns the written lines (each written
as slice + `"\n"`, so the file's lines are exactly the slices). -/
def denistifyLoop : List (List Char) → List (List Char)
  | [] => []
  | l :: ls =>
    if slice4476 l = [] then []
    else if md5Match (slice4476 l) then slice4476 l :: denistifyLoop ls
    else denistifyLoop ls

/-! ### Concrete values used in counterexamples and witnesses -/

/-- The MD5 of the empty string in lowercase, the spec's round-trip input. -/
def lcMd5 : List Char := "d41d8cd98f00b204e9800998ecf8427e".toList

/-- The same hash in canonical uppercase form. -/
def ucMd5 : List Char := "D41D8CD98F00B204E9800998ECF8427E".toList

/-- A 64-character hexadecimal token (SHA-256 shaped). -/
def hex64 : List Char :=
  "0123456789abcdef0123456789abcdef0123456789abcdef0123456789abcdef".toList

/-- A fixed-width NSRL-style line: 44 filler characters, then a lowercase MD5
at columns 44–76, then the trailing newline (77 characters in all). -/
def nsrlLine : List Char := List.replicate 44 'x' ++ lcMd5 ++ ['\n']

/-- A short line (3 characters, fewer than 76 and also at most 44). -/
def shortLine : List Char := "OK\n".toList

/-- A line holding a 32-character hex token strictly before a 64-character hex
token, separated by a non-hex character. -/
def mixedLine : List Char := lcMd5 ++ 'g' :: hex64

/-! ### Helper lemmas shared by several claims -/

theorem hexRun_shape {cs : List Char} {n : Nat} {m : List Char}
    (h : hexRun cs n = some m) : m.length = n ∧ m.all isHexDigit = true := by
  unfold hexRun at h
  split at h
  · rename_i hcond
    cases h
    simpa using hcond
  · exact absurd h (by simp)

theorem searchHash_shape {l m : List Char} (h : searchHash l = some m) :
    (m.length = 32 ∨ m.length = 40 ∨ m.length = 64) ∧ m.all isHexDigit = true := by
  induction l with
  | nil => simp [searchHash] at h
  | cons c cs ih =>
    unfold searchHash at h
    split at h
    · rename_i h64
      cases h
      have := hexRun_shape h64
      tauto
    · split at h
      · rename_i h40
        cases h
        have := hexRun_shape h40
        tauto
      · split at h
        · rename_i h32
          cases h
          have := hexRun_shape h32
          tauto
        · exact ih h

theorem hexDigits_pyUpper : ∀ c ∈ hexDigits, isUpperHexDigit (pyUpper c) = true := by
  decide

theorem isHexDigit_pyUpper {c : Char} (h : isHexDigit c = true) :
    isUpperHexDigit (pyUpper c) = true := by
  have hc : c ∈ hexDigits := of_decide_eq_true h
  exact hexDigits_pyUpper c hc

theorem slice4476_eq_nil_iff (l : List Char) : slice4476 l = [] ↔ l.length ≤ 44 := by
  have hlen : (slice4476 l).length = min 32 (l.length - 44) := by
    simp [slice4476]
  constructor
  · intro h
    have : (slice4476 l).length = 0 := by simp [h]
    rw [hlen] at this
    omega
  · intro h
    have : (slice4476 l).length = 0 := by rw [hlen]; omega
    exact List.length_eq_zero.mp this

theorem slice4476_length_le (l : List Char) : (slice4476 l).length ≤ 32 := by
  simp [slice4476]

theorem md5Match_slice {l : List Char} (h : md5Match (slice4476 l) = true) :
    (slice4476 l).length = 32 ∧ (slice4476 l).all isHexDigit = true := by
  unfold md5Match at h
  rcases Bool.or_eq_true_iff.mp h with h1 | h2
  · simpa using h1
  · have hle := slice4476_length_le l
    have : (slice4476 l).length = 33 := by
      have := Bool.and_eq_true_iff.mp h2
      have := Bool.and_eq_true_iff.mp this.1
      simpa using this.1
    omega

/-- The code of `denistifyLoop`, restated: the loop covers exactly the maximal
prefix of lines longer than 44 characters, writing the matching slices. -/
theorem denistifyLoop_spec (ls : List (List Char)) :
    denistifyLoop ls =
      (ls.takeWhile (fun l => 44 < l.length)).filterMap
        (fun l => if md5Match (slice4476 l) then some (slice4476 l) else none) := by
  induction ls with
  | nil => rfl
  | cons l ls ih =>
    by_cases hshort : l.length ≤ 44
    · have hnil : slice4476 l = [] := (slice4476_eq_nil_iff l).mpr hshort
      have hnot : ¬ (44 < l.length) := by omega
      simp [denistifyLoop, hnil, List.takeWhile_cons, hnot]
    · have hlong : 44 < l.length := by omega
      have hnil : ¬ (slice4476 l = []) := by
        rw [slice4476_eq_nil_iff]; omega
      by_cases hm : md5Match (slice4476 l) = true
      · simp [denistifyLoop, hnil, hm, List.takeWhile_cons, hlong, ih]
      · simp [denistifyLoop, hnil, hm, List.takeWhile_cons, hlong, ih]

theorem findSome?_over_map {α β γ : Type} (g : α → β) (f : β → Option γ)
    (l : List α) : (l.map g).findSome? f = l.findSome? (fun a => f (g a)) := by
  induction l with
  | nil => rfl
  | cons a l ih =>
    simp only [List.map_cons, List.findSome?_cons]
    cases f (g a) <;> simp [ih]

theorem matchAt_succ_cons (c : Char) (cs : List Char) (i : Nat) :
    matchAt (c :: cs) (i + 1) = matchAt cs i := by
  simp [matchAt, List.drop_succ_cons]

/-- The code of `searchHash`, restated: the search returns the alternation's
result at the leftmost start position where some alternative matches. -/
theorem searchHash_eq_findSome (l : List Char) :
    searchHash l = (List.range (l.length + 1)).findSome? (matchAt l) := by
  induction l with
  | nil => rfl
  | cons c cs ih =>
    have hrange : List.range (cs.length + 1 + 1) =
        0 :: (List.range (cs.length + 1)).map Nat.succ :=
      List.range_succ_eq_map _
    have hfun : (fun i => matchAt (c :: cs) (Nat.succ i)) = matchAt cs := by
      funext i
      exact matchAt_succ_cons c cs i
    rw [List.length_cons, hrange, List.findSome?_cons, findSome?_over_map, hfun, ← ih]
    simp only [searchHash, matchAt, List.drop_zero]
    cases hexRun (c :: cs) 64 <;> cases hexRun (c :: cs) 40 <;>
      cases hexRun (c :: cs) 32 <;> rfl

theorem length_filterMap_isSome {α β : Type} (f : α → Option β) (l : List α) :
    (l.filterMap f).length = (l.filter (fun x => (f x).isSome)).length := by
  induction l with
  | nil => rfl
  | cons a l ih =>
    cases h : f a <;> simp [List.filterMap_cons, h, List.filter_cons, ih]

theorem convertFormat_badargs {args : List (List Char)} (h : args.length ≠ 1)
    (readable : Bool) (lines : List (List Char)) :
    convertFormat args readable lines = ⟨-1, none⟩ := by
  unfold convertFormat
  rw [if_pos h]

theorem convertFormat_cons {a : List Char} {lines : List (List Char)}
    {h0 : List Char} {rest : List (List Char)}
    (hh : lines.filterMap searchHash = h0 :: rest) :
    convertFormat [a] true lines =
      if rest.any (fun x => x.length ≠ h0.length) then ⟨-8, none⟩
      else ⟨0, some ((h0 :: rest).map (fun h => h.map pyUpper))⟩ := by
  unfold convertFormat
  rw [hh, if_neg (by simp : ¬ ([a].length ≠ 1)), if_neg (by simp : ¬ (true = false))]

theorem convertFormat_unreadable {args : List (List Char)} (h : args.length = 1)
    (lines : List (List Char)) :
    convertFormat args false lines = ⟨-2, none⟩ := by
  unfold convertFormat
  rw [if_neg (not_not_intro h), if_pos rfl]

theorem convertFormat_empty {args : List (List Char)} (h : args.length = 1)
    {lines : List (List Char)} (hfm : lines.filterMap searchHash = []) :
    convertFormat args true lines = ⟨-4, none⟩ := by
  unfold convertFormat
  rw [if_neg (not_not_intro h), if_neg (by simp : ¬ (true = false)), hfm]

theorem length_takeWhile_le_length {α : Type} (p : α → Bool) (ls : List α) :
    (ls.takeWhile p).length ≤ ls.length := by
  induction ls with
  | nil => simp
  | cons a ls ih =>
    rw [List.takeWhile_cons]
    by_cases h : p a = true
    · rw [if_pos h, List.length_cons, List.length_cons]
      omega
    · rw [if_neg h]
      simp

theorem takeWhile_takeWhile_self {α : Type} (p : α → Bool) (ls : List α) :
    (ls.takeWhile p).takeWhile p = ls.takeWhile p := by
  induction ls with
  | nil => rfl
  | cons a ls ih =>
    by_cases h : p a = true
    · simp [List.takeWhile_cons, h, ih]
    · simp [List.takeWhile_cons, h]

/-! ### Claims about the fixed-offset pipeline (denistify.py) -/

/-- Claim C1 counterexample: a two-line file whose first line is shorter than
76 characters (3 characters) and whose second line carries exactly 32 valid
hexadecimal characters at columns 44–76.  The claim says the short line is
skipped, processing continues, and the valid slice of the second line is
written; in fact the `while line:` loop ends at the first empty slice, so
nothing at all is written. -/
theorem denistify_short_line_cex :
    shortLine.length < 76 ∧
    md5Match (slice4476 nsrlLine) = true ∧
    denistifyLoop [shortLine, nsrlLine] = [] := by
  refine ⟨by decide, by decide, by decide⟩

/-- Claim C1 (amended): in fixed-offset mode the run covers exactly the lines
before the first line of at most 44 characters (whose slice `[44:76]` is
empty and ends the loop); within that prefix a line whose slice is exactly 32
valid hexadecimal characters has the slice written to the output, any other
line is skipped, and no error is raised (the function is total). -/
theorem denistify_fixed_offset_amended (ls : List (List Char)) :
    denistifyLoop ls =
      (ls.takeWhile (fun l => 44 < l.length)).filterMap
        (fun l => if md5Match (slice4476 l) then some (slice4476 l) else none) :=
  denistifyLoop_spec ls

/-- Claim C10: the fixed-offset loop terminates on every finite input (it is a
total function of the line list); it reads exactly the maximal leading run of
lines longer than 44 characters, ending at end of file or at the first line
whose slice at characters 44–76 is empty, and each iteration consumes one
input line, so it emits at most one output line per input line. -/
theorem denistify_loop_termination (ls : List (List Char)) :
    denistifyLoop ls = denistifyLoop (ls.takeWhile (fun l => 44 < l.length)) ∧
    (denistifyLoop ls).length ≤ ls.length := by
  constructor
  · rw [denistifyLoop_spec, denistifyLoop_spec ((ls.takeWhile (fun l => 44 < l.length))),
      takeWhile_takeWhile_self]
  · rw [denistifyLoop_spec]
    calc ((ls.takeWhile (fun l => 44 < l.length)).filterMap
            (fun l => if md5Match (slice4476 l) then some (slice4476 l) else none)).length
        ≤ (ls.takeWhile (fun l => 44 < l.length)).length := by
          apply List.length_filterMap_le
      _ ≤ ls.length := by apply length_takeWhile_le_length

/-- Claim C2 counterexample: a fixed-offset input line whose columns 44–76
hold a lowercase MD5.  The slice is written to the output file unchanged, so
the emitted line is 32 hex characters but not uppercase, contradicting the
claim that every emitted line in every mode is uppercase hex. -/
theorem output_uppercase_cex :
    denistifyLoop [nsrlLine] = [lcMd5] ∧ lcMd5.all isUpperHexDigit = false := by
  refine ⟨by decide, by decide⟩

/-- Claim C2 (amended): in free-text mode every line written to the output
file is exactly 32, 40 or 64 uppercase hexadecimal characters; in fixed-offset
mode every line written is exactly 32 hexadecimal characters, but with its
case preserved from the input rather than uppercased. -/
theorem output_line_shape_amended :
    (∀ args readable lines out,
      (convertFormat args readable lines).output = some out →
      ∀ l ∈ out, (l.length = 32 ∨ l.length = 40 ∨ l.length = 64) ∧
        l.all isUpperHexDigit = true) ∧
    (∀ lines : List (List Char), ∀ l ∈ denistifyLoop lines,
      l.length = 32 ∧ l.all isHexDigit = true) := by
  constructor
  · intro args readable lines out hout l hl
    unfold convertFormat at hout
    split at hout
    · simp at hout
    · split at hout
      · simp at hout
      · split at hout
        · simp at hout
        · rename_i h0 rest heq
          split at hout
          · simp at hout
          · have hout' : (h0 :: rest).map (fun h => h.map pyUpper) = out := by
              simpa using hout
            rw [← hout'] at hl
            rcases List.mem_map.mp hl with ⟨h, hmem, rfl⟩
            have hh : h ∈ lines.filterMap searchHash := by rw [heq]; exact hmem
            rcases List.mem_filterMap.mp hh with ⟨a, _, hsearch⟩
            have hshape := searchHash_shape hsearch
            constructor
            · simpa [List.length_map] using hshape.1
            · rw [List.all_eq_true]
              intro c hc
              rcases List.mem_map.mp hc with ⟨d, hd, rfl⟩
              exact isHexDigit_pyUpper (List.all_eq_true.mp hshape.2 d hd)
  · intro lines l hl
    rw [denistifyLoop_spec] at hl
    rcases List.mem_filterMap.mp hl with ⟨a, _, hfa⟩
    split at hfa
    · rename_i hm
      cases hfa
      exact md5Match_slice hm
    · simp at hfa

/-- Witness for the amended C2 theorem: the canonical uppercase MD5 produced
by the round-trip run satisfies the free-text shape, and the lowercase MD5
emitted by the fixed-offset run satisfies the fixed-offset shape. -/
theorem output_line_shape_amended_witness :
    ((ucMd5.length = 32 ∨ ucMd5.length = 40 ∨ ucMd5.length = 64) ∧
      ucMd5.all isUpperHexDigit = true) ∧
    (lcMd5.length = 32 ∧ lcMd5.all isHexDigit = true) :=
  ⟨output_line_shape_amended.1 [['f']] true [lcMd5] [ucMd5] (by decide) ucMd5
      (by decide),
    output_line_shape_amended.2 [nsrlLine] lcMd5 (by decide)⟩

/-! ### Claims about the free-text pipeline (convert-format.py) -/

/-- Claim C3: on a proper invocation (one argument, readable input) whose
extracted hashes are nonempty and of a single uniform length, the run exits
with status 0, the output file holds exactly the uppercased extracted hashes
in encountered order (duplicates preserved, prior contents replaced), and its
line count equals the number of input lines containing a match. -/
theorem convert_uniform_success (a : List Char) (lines prior : List (List Char))
    (hne : lines.filterMap searchHash ≠ [])
    (huni : ∀ x ∈ lines.filterMap searchHash, ∀ y ∈ lines.filterMap searchHash,
      x.length = y.length) :
    (convertFormat [a] true lines).exitCode = 0 ∧
    (convertFormat [a] true lines).output =
      some ((lines.filterMap searchHash).map (fun h => h.map pyUpper)) ∧
    finalOutputFile (convertFormat [a] true lines) prior =
      (lines.filterMap searchHash).map (fun h => h.map pyUpper) ∧
    ((lines.filterMap searchHash).map (fun h => h.map pyUpper)).length =
      (lines.filter (fun l => (searchHash l).isSome)).length := by
  obtain ⟨h0, rest, hh⟩ := List.exists_cons_of_ne_nil hne
  have hx : ∀ x ∈ rest, x.length = h0.length := by
    intro x hxm
    exact huni x (by rw [hh]; exact List.mem_cons_of_mem _ hxm) h0
      (by rw [hh]; exact List.mem_cons_self _ _)
  have hany : ¬ ((rest.any fun x => x.length ≠ h0.length) = true) := by
    intro hcase
    rcases List.any_eq_true.mp hcase with ⟨x, hxm, hxne⟩
    simp only [decide_eq_true_eq] at hxne
    exact hxne (hx x hxm)
  have hmain : convertFormat [a] true lines =
      ⟨0, some ((h0 :: rest).map (fun h => h.map pyUpper))⟩ := by
    rw [convertFormat_cons hh, if_neg hany]
  rw [hmain, hh]
  refine ⟨rfl, rfl, rfl, ?_⟩
  rw [List.length_map, ← hh, length_filterMap_isSome]

/-- Witness for C3 at the one-line input made of the lowercase MD5. -/
theorem convert_uniform_success_witness :
    (convertFormat [['f']] true [lcMd5]).exitCode = 0 ∧
    (convertFormat [['f']] true [lcMd5]).output =
      some (([lcMd5].filterMap searchHash).map (fun h => h.map pyUpper)) ∧
    finalOutputFile (convertFormat [['f']] true [lcMd5]) [['z']] =
      ([lcMd5].filterMap searchHash).map (fun h => h.map pyUpper) ∧
    (([lcMd5].filterMap searchHash).map (fun h => h.map pyUpper)).length =
      ([lcMd5].filter (fun l => (searchHash l).isSome)).length :=
  convert_uniform_success ['f'] [lcMd5] [['z']] (by decide) (by decide)

/-- Claim C4 counterexample: on a line holding a 32-character hex token
strictly before a 64-character hex token, the search returns the earlier
32-character token, not the first substring matching `[hex]{64}`: precedence
is leftmost start position first, with 64/40/32 tried only at equal
positions. -/
theorem search_longest_first_cex :
    mixedLine = lcMd5 ++ 'g' :: hex64 ∧
    hex64.length = 64 ∧ hex64.all isHexDigit = true ∧
    searchHash mixedLine = some lcMd5 ∧ lcMd5.length = 32 := by
  refine ⟨rfl, by decide, by decide, by decide, by decide⟩

/-- Claim C4 (amended): for every line the matcher returns the alternation's
result at the leftmost start position where one of `[hex]{64}`, `[hex]{40}`,
`[hex]{32}` matches, trying the three alternatives longest first only at each
position (so an earlier shorter token beats a later longer one); any returned
match is 32, 40 or 64 hex characters, at most one match per line is produced,
and a line without a match contributes nothing and raises no error. -/
theorem search_leftmost_amended (l : List Char) :
    searchHash l = (List.range (l.length + 1)).findSome? (matchAt l) ∧
    (∀ m, searchHash l = some m →
      (m.length = 32 ∨ m.length = 40 ∨ m.length = 64) ∧ m.all isHexDigit = true) ∧
    (searchHash l = none → [l].filterMap searchHash = []) := by
  refine ⟨searchHash_eq_findSome l, fun m hm => searchHash_shape hm, ?_⟩
  intro h
  simp [List.filterMap_cons, h]

/-- Witness for the amended C4 theorem at the lowercase MD5 line. -/
theorem search_leftmost_amended_witness :
    (lcMd5.length = 32 ∨ lcMd5.length = 40 ∨ lcMd5.length = 64) ∧
    lcMd5.all isHexDigit = true :=
  (search_leftmost_amended lcMd5).2.1 lcMd5 (by decide)

/-- Claim C5: on a proper invocation whose input has a line yielding a
32-character token and a line yielding a 64-character token, the run exits
with the mixed-algorithm code -8 and never opens the output file, so the
prior output contents are unchanged. -/
theorem convert_mixed_error (a : List Char) (lines prior : List (List Char))
    (l32 m32 : List Char) (h32mem : l32 ∈ lines) (h32 : searchHash l32 = some m32)
    (h32len : m32.length = 32)
    (l64 m64 : List Char) (h64mem : l64 ∈ lines) (h64 : searchHash l64 = some m64)
    (h64len : m64.length = 64) :
    (convertFormat [a] true lines).exitCode = -8 ∧
    (convertFormat [a] true lines).output = none ∧
    finalOutputFile (convertFormat [a] true lines) prior = prior := by
  have hm32 : m32 ∈ lines.filterMap searchHash :=
    List.mem_filterMap.mpr ⟨l32, h32mem, h32⟩
  have hm64 : m64 ∈ lines.filterMap searchHash :=
    List.mem_filterMap.mpr ⟨l64, h64mem, h64⟩
  have hne : lines.filterMap searchHash ≠ [] := by
    intro hcon
    rw [hcon] at hm32
    exact absurd hm32 (List.not_mem_nil _)
  obtain ⟨h0, rest, hh⟩ := List.exists_cons_of_ne_nil hne
  rw [hh] at hm32 hm64
  have hx : ∃ x ∈ rest, x.length ≠ h0.length := by
    by_cases hc : h0.length = 32
    · refine ⟨m64, ?_, by omega⟩
      rcases List.mem_cons.mp hm64 with rfl | hmem
      · exfalso; omega
      · exact hmem
    · refine ⟨m32, ?_, by omega⟩
      rcases List.mem_cons.mp hm32 with rfl | hmem
      · exfalso; omega
      · exact hmem
  have hany : (rest.any fun x => x.length ≠ h0.length) = true := by
    rcases hx with ⟨x, hxm, hxne⟩
    exact List.any_eq_true.mpr ⟨x, hxm, by simpa using hxne⟩
  have hmain : convertFormat [a] true lines = ⟨-8, none⟩ := by
    rw [convertFormat_cons hh, if_pos hany]
  rw [hmain]
  exact ⟨rfl, rfl, rfl⟩

/-- Witness for C5 at the two-line input holding a lowercase MD5 and a
64-character hex token. -/
theorem convert_mixed_error_witness :
    (convertFormat [['f']] true [lcMd5, hex64]).exitCode = -8 ∧
    (convertFormat [['f']] true [lcMd5, hex64]).output = none ∧
    finalOutputFile (convertFormat [['f']] true [lcMd5, hex64]) [ucMd5] = [ucMd5] :=
  convert_mixed_error ['f'] [lcMd5, hex64] [ucMd5] lcMd5 lcMd5 (by decide)
    (by decide) (by decide) hex64 hex64 (by decide) (by decide) (by decide)

/-- Claim C7: on a proper invocation whose input has no line matching any
hash pattern, the run exits with the empty-result code -4 and never opens the
output file — it does not silently produce an empty output. -/
theorem convert_empty_error (a : List Char) (lines prior : List (List Char))
    (h : lines.filterMap searchHash = []) :
    (convertFormat [a] true lines).exitCode = -4 ∧
    (convertFormat [a] true lines).output = none ∧
    finalOutputFile (convertFormat [a] true lines) prior = prior := by
  unfold convertFormat
  rw [h]
  simp [finalOutputFile]

/-- Witness for C7 at a one-line input with no hash. -/
theorem convert_empty_error_witness :
    (convertFormat [['f']] true ["hello\n".toList]).exitCode = -4 ∧
    (convertFormat [['f']] true ["hello\n".toList]).output = none ∧
    finalOutputFile (convertFormat [['f']] true ["hello\n".toList]) [ucMd5] =
      [ucMd5] :=
  convert_empty_error ['f'] ["hello\n".toList] [ucMd5] (by decide)

/-- Claim C8: the one-line input holding the lowercase MD5 of the empty string
(with its trailing newline) succeeds and writes exactly the uppercase form. -/
theorem convert_roundtrip_md5 :
    convertFormat [['f']] true [lcMd5 ++ ['\n']] = ⟨0, some [ucMd5]⟩ := by
  decide

/-- Claim C9: every invocation whose argument count differs from one —
zero arguments or two or more alike — exits with the missing-argument code
-1 before touching any file: the result is the same whatever the input file's
readability or contents, and the output file is never opened. -/
theorem convert_argcount_error (args : List (List Char)) (readable : Bool)
    (lines prior : List (List Char)) (h : args.length ≠ 1) :
    (convertFormat args readable lines).exitCode = -1 ∧
    (convertFormat args readable lines).output = none ∧
    finalOutputFile (convertFormat args readable lines) prior = prior ∧
    (∀ readable2 : Bool, ∀ lines2 : List (List Char),
      convertFormat args readable lines = convertFormat args readable2 lines2) := by
  rw [convertFormat_badargs h readable lines]
  refine ⟨rfl, rfl, rfl, fun r2 l2 => ?_⟩
  rw [convertFormat_badargs h r2 l2]

/-- Witness for C9 at a two-argument invocation. -/
theorem convert_argcount_error_witness :
    (convertFormat [['a'], ['b']] true [lcMd5]).exitCode = -1 ∧
    (convertFormat [['a'], ['b']] true [lcMd5]).output = none ∧
    finalOutputFile (convertFormat [['a'], ['b']] true [lcMd5]) [ucMd5] = [ucMd5] ∧
    (∀ readable2 : Bool, ∀ lines2 : List (List Char),
      convertFormat [['a'], ['b']] true [lcMd5] =
        convertFormat [['a'], ['b']] readable2 lines2) :=
  convert_argcount_error [['a'], ['b']] true [lcMd5] [ucMd5] (by decide)

/-- Claim C6: the free-text run exits with 0 exactly when it succeeds (writes
the output file), and each of the four failure causes — no argument, input
unreadable, zero hashes found, mixed hash lengths — exits with its own code
(-1, -2, -4, -8 respectively), which are pairwise distinct and nonzero. -/
theorem convert_exit_codes (args : List (List Char)) (readable : Bool)
    (lines : List (List Char)) :
    ((convertFormat args readable lines).exitCode = 0 ↔
      (convertFormat args readable lines).output.isSome = true) ∧
    (args.length ≠ 1 → (convertFormat args readable lines).exitCode = -1) ∧
    (args.length = 1 → readable = false →
      (convertFormat args readable lines).exitCode = -2) ∧
    (args.length = 1 → readable = true → lines.filterMap searchHash = [] →
      (convertFormat args readable lines).exitCode = -4) ∧
    (args.length = 1 → readable = true →
      ∀ h0 rest, lines.filterMap searchHash = h0 :: rest →
        (rest.any fun x => x.length ≠ h0.length) = true →
        (convertFormat args readable lines).exitCode = -8) ∧
    ([(-1 : Int), -2, -4, -8].Pairwise (fun x y => x ≠ y)) ∧
    (∀ c ∈ [(-1 : Int), -2, -4, -8], c ≠ 0) := by
  have hiff : (convertFormat args readable lines).exitCode = 0 ↔
      (convertFormat args readable lines).output.isSome = true := by
    by_cases h1 : args.length = 1
    · cases readable with
      | false =>
        rw [convertFormat_unreadable h1]
        decide
      | true =>
        obtain ⟨a, rfl⟩ := List.length_eq_one.mp h1
        cases hfm : lines.filterMap searchHash with
        | nil =>
          rw [convertFormat_empty h1 hfm]
          decide
        | cons h0 rest =>
          rw [convertFormat_cons hfm]
          by_cases hany : (rest.any fun x => x.length ≠ h0.length) = true
          · rw [if_pos hany]
            decide
          · rw [if_neg hany]
            simp
    · rw [convertFormat_badargs h1 readable lines]
      decide
  refine ⟨hiff, ?_, ?_, ?_, ?_, by decide, by decide⟩
  · intro h
    rw [convertFormat_badargs h readable lines]
  · intro h1 h2
    subst h2
    rw [convertFormat_unreadable h1 lines]
  · intro h1 h2 hfm
    subst h2
    rw [convertFormat_empty h1 hfm]
  · intro h1 h2 h0 rest hfm hany
    subst h2
    obtain ⟨a, rfl⟩ := List.length_eq_one.mp h1
    rw [convertFormat_cons hfm, if_pos hany]

/-- Witness for C6 at a zero-argument invocation. -/
theorem convert_exit_codes_witness :
    (convertFormat [] true []).exitCode = -1 :=
  (convert_exit_codes [] true []).2.1 (by decide)
